import Mathlib

/-!
Verification development for the `simpla_engine` bytecode interpreter.

Shallow embedding of the interpreter's data model and execution engine:
  * `command_definition.rs` : the typed instruction set and program structure;
  * `string_memory.rs`      : the reference-counted string pool (the `HashMap`
    is modelled as an association list with unique keys, where insertion
    replaces the first matching entry and update touches the first match,
    matching hash-map semantics);
  * `reference_memory.rs`   : the reference-counting operand stack for strings;
  * `for_loop_stack.rs`     : the auxiliary for-loop counter stack;
  * `line_reader.rs`        : the buffered stdin tokenizer (stdin is modelled
    as the list of lines that `read_line` would deliver; byte indices into
    lines are modelled as character indices, which agree on ASCII input);
  * `engine.rs`             : the evaluator.

Rust `Vec` used as a stack is modelled as a Lean `List` whose head is the top
(`Vec::push` is cons, `Vec::pop` takes the head, `Vec::last` is the head);
`Vec` used as an indexed memory is a `List` with the same index order.
Panics (`unwrap`, `panic!`, `unreachable!`, out-of-bounds indexing) are
modelled as `none` / dedicated `fatal` results; `i32` is modelled as `Int`
with two's-complement wrapping where Rust release builds wrap, `f64` as
`Float`.
-/

namespace Simpla

/-- Two's-complement wrap of an integer into the `i32` range. -/
def wrap32 (x : Int) : Int := (x + 2 ^ 31) % 2 ^ 32 - 2 ^ 31

/-! ## command_definition.rs -/

inductive Kind where
  | integer
  | real
  | str
  | bool
deriving DecidableEq, Repr

inductive MathOperator where
  | add
  | sub
  | mul
  | div
deriving DecidableEq, Repr

inductive RelationalOperator where
  | greatEq
  | greater
  | lessEq
  | less
  | equal
  | notEqual
deriving DecidableEq, Repr

inductive Operator where
  | math (m : MathOperator)
  | rel (r : RelationalOperator)
deriving DecidableEq, Repr

inductive ControlFlow where
  | jump
  | jumpTrue
  | jumpFalse
  | label
  | call
  | ret
deriving DecidableEq, Repr

inductive Constant where
  | integer (i : Int)
  | real (r : Float)
  | str (s : Nat)
  | bool (b : Bool)
deriving Repr

inductive FlushMode where
  | flush
  | newLine
deriving DecidableEq, Repr

inductive ForControl where
  | new
  | end_
  | check
deriving DecidableEq, Repr

/-- The commands of `command_definition.rs`. The enum declares no variant for
logical `And` / `Or`, although `program_load.rs` constructs `Command::And` and
`Command::Or`. -/
inductive Command where
  | integer (op : Operator)
  | real (op : Operator)
  | castInt
  | castReal
  | memoryLoad (k : Kind) (addr : Nat)
  | memoryStore (k : Kind) (addr : Nat)
  | control (c : ControlFlow) (addr : Nat)
  | input (k : Kind)
  | output (k : Kind)
  | flush (m : FlushMode)
  | forControl (c : ForControl)
  | exit
  | constantLoad (c : Constant)
  | storeParam (k : Kind) (addr : Nat)
  | newRecord (fId : Nat)
  | unary (k : Kind)
  | strCompare (r : RelationalOperator)
  | boolCompare (r : RelationalOperator)
deriving Repr

/-- A block: command list plus the label → position map (`HashMap` modelled as
an association list). -/
structure Block where
  code : List Command
  labels : List (Nat × Nat)
deriving Repr

/-- `Block::build_labels`: scan the command list and record, for each
`Control(Label, l)` at position `i`, the mapping `l ↦ i`. -/
def buildLabels (code : List Command) : List (Nat × Nat) :=
  code.enum.filterMap fun p =>
    match p.2 with
    | .control .label l => some (l, p.1)
    | _ => none

/-- `Block::new`. -/
def Block.new (code : List Command) : Block := ⟨code, buildLabels code⟩

/-- `HashMap` key lookup (`labels[addr]` indexing; a miss is a panic at the
use site). -/
def labelLookup (labels : List (Nat × Nat)) (k : Nat) : Option Nat :=
  (labels.find? fun p => p.1 = k).map (·.2)

structure Program where
  body : Block
  func : List Block
deriving Repr

structure MemorySize where
  integerCount : Nat
  realCount : Nat
  booleanCount : Nat
  stringCount : Nat
deriving Repr

structure ProgramMemory where
  main : MemorySize
  func : List MemorySize
deriving Repr

/-! ## string_memory.rs -/

inductive StringType where
  | static
  | dynamic
deriving DecidableEq, Repr

structure StringValue where
  string : String
  refCount : Nat
  strType : StringType
deriving Repr

/-- `StringValue::new`. -/
def StringValue.new (s : String) (t : StringType) : StringValue :=
  ⟨s, 1, t⟩

/-- `StringValue::incr_ref`: increments only dynamic entries. -/
def StringValue.incrRef (v : StringValue) : StringValue :=
  match v.strType with
  | .dynamic => { v with refCount := v.refCount + 1 }
  | .static => v

/-- `StringValue::decr_ref`: decrements only dynamic entries and never below
zero. -/
def StringValue.decrRef (v : StringValue) : StringValue :=
  match v.strType with
  | .dynamic => if v.refCount > 0 then { v with refCount := v.refCount - 1 } else v
  | .static => v

/-- `HashMap::get` over the association-list model. -/
def lookupBuff (l : List (Nat × StringValue)) (k : Nat) : Option StringValue :=
  (l.find? fun p => p.1 = k).map (·.2)

/-- `HashMap::insert`: replace the (unique) entry with the given key, or add a
new one. -/
def insertBuff (l : List (Nat × StringValue)) (k : Nat) (v : StringValue) :
    List (Nat × StringValue) :=
  match l with
  | [] => [(k, v)]
  | p :: rest => if p.1 = k then (k, v) :: rest else p :: insertBuff rest k v

/-- `HashMap::get_mut` followed by an in-place update of the found entry. -/
def updateBuff (l : List (Nat × StringValue)) (k : Nat) (f : StringValue → StringValue) :
    List (Nat × StringValue) :=
  match l with
  | [] => []
  | p :: rest => if p.1 = k then (p.1, f p.2) :: rest else p :: updateBuff rest k f

structure StringMemory where
  buff : List (Nat × StringValue)
  index : Nat
deriving Repr

/-- `StringMemory::new`. -/
def StringMemory.newMem : StringMemory := ⟨[], 0⟩

/-- `StringMemory::insert_new_string`: returns the fresh key and the updated
pool. -/
def StringMemory.insertNewString (m : StringMemory) (s : String) (t : StringType) :
    Nat × StringMemory :=
  (m.index, ⟨insertBuff m.buff m.index (StringValue.new s t), m.index + 1⟩)

/-- `StringMemory::insert_string` (dynamic entry). -/
def StringMemory.insertString (m : StringMemory) (s : String) : Nat × StringMemory :=
  m.insertNewString s .dynamic

/-- `StringMemory::insert_static_string`. -/
def StringMemory.insertStaticString (m : StringMemory) (s : String) : Nat × StringMemory :=
  m.insertNewString s .static

/-- `ReferenceCount::increment` for `StringMemory`: `get_mut(..).unwrap()`
panics (`none`) on a missing handle. -/
def StringMemory.increment (m : StringMemory) (i : Nat) : Option StringMemory :=
  match lookupBuff m.buff i with
  | none => none
  | some _ => some { m with buff := updateBuff m.buff i StringValue.incrRef }

/-- `ReferenceCount::decrement` for `StringMemory`: `if let Some(..)` makes a
miss a silent no-op. -/
def StringMemory.decrement (m : StringMemory) (i : Nat) : StringMemory :=
  { m with buff := updateBuff m.buff i StringValue.decrRef }

/-- `ReferenceCount::clean`: retain entries with positive refcount. -/
def StringMemory.clean (m : StringMemory) : StringMemory :=
  { m with buff := m.buff.filter fun p => p.2.refCount > 0 }

/-- `StringMemory::remove_strings`: decrement each handle of a frame's string
cells in order. -/
def StringMemory.removeStrings (m : StringMemory) (stringMem : List Nat) : StringMemory :=
  stringMem.foldl (fun acc i => acc.decrement i) m

/-- `StringMemory::get_string`: `unwrap` panics (`none`) on a missing
handle. -/
def StringMemory.getString (m : StringMemory) (i : Nat) : Option String :=
  (lookupBuff m.buff i).map (·.string)

/-- Refcount of a handle (0 when absent). -/
def refCountOf (m : StringMemory) (h : Nat) : Nat :=
  match lookupBuff m.buff h with
  | some v => v.refCount
  | none => 0

/-- Entry type of a handle, if present. -/
def strTypeOf (m : StringMemory) (h : Nat) : Option StringType :=
  (lookupBuff m.buff h).map (·.strType)

/-- Sum of all refcounts in the pool. -/
def totalRefCount (m : StringMemory) : Nat :=
  (m.buff.map fun p => p.2.refCount).sum

/-! ## reference_memory.rs -/

structure ReferenceStack where
  stack : List Nat
deriving Repr

/-- `ReferenceStack::push`: increment then push. The increment's panic
propagates as `none`. -/
def ReferenceStack.push (rs : ReferenceStack) (mem : StringMemory) (i : Nat) :
    Option (ReferenceStack × StringMemory) :=
  (mem.increment i).map fun m => (⟨i :: rs.stack⟩, m)

/-- `ReferenceStack::pop`: pop (`unwrap` panics on empty) then decrement. -/
def ReferenceStack.pop (rs : ReferenceStack) (mem : StringMemory) :
    Option (Nat × ReferenceStack × StringMemory) :=
  match rs.stack with
  | [] => none
  | x :: xs => some (x, ⟨xs⟩, mem.decrement x)

/-- `StringMemory::binary_operation`: pop rhs then lhs, resolve both
(`unwrap` panics on a miss), apply the callback. -/
def StringMemory.binaryOperation (m : StringMemory) (callback : String → String → Bool)
    (stack : ReferenceStack) : Option (Bool × ReferenceStack × StringMemory) :=
  match stack.pop m with
  | none => none
  | some (rhsIdx, st1, m1) =>
    match st1.pop m1 with
    | none => none
    | some (lhsIdx, st2, m2) =>
      match lookupBuff m2.buff rhsIdx, lookupBuff m2.buff lhsIdx with
      | some rhs, some lhs => some (callback lhs.string rhs.string, st2, m2)
      | _, _ => none

/-! ## for_loop_stack.rs -/

/-- `ForLoopStack::process_command`: returns the updated (for-loop stack,
integer stack); `none` models the `unwrap` panics. -/
def processForCommand (ctrl : ForControl) (flStack intStack : List Int) :
    Option (List Int × List Int) :=
  match ctrl with
  | .check =>
    match flStack with
    | [] => none
    | top :: _ => some (flStack, top :: intStack)
  | .end_ => some (flStack.tail, intStack)
  | .new =>
    match intStack with
    | [] => none
    | top :: rest => some (top :: flStack, rest)

/-! ## line_reader.rs

Stdin is modelled as the list of lines `get_line` would deliver (each as
returned by `read_line`, i.e. normally still carrying its trailing newline,
which `read_from_stdin` strips via `buff.pop()`); an empty list is EOF. -/

inductive ReadError where
  | inputOutput
  | intParseError (s : String)
  | realParseError (s : String)
  | boolParseError (s : String)
  | eof
deriving DecidableEq, Repr

structure StringBuffer where
  buff : Option String
  begin : Nat
deriving Repr

/-- `char::is_ascii_whitespace`. -/
def isAsciiWhitespace (c : Char) : Bool :=
  c = ' ' || c = '\t' || c = '\n' || c = '\x0c' || c = '\x0d'

/-- `find_next_token`: skip ASCII whitespace from `begin`, return the next
whitespace-delimited token and the index just past it (string indices are
character indices in this model). -/
def findNextToken (begin : Nat) (s : String) : Option (String × Nat) :=
  if begin = s.length then none
  else
    let skipped := ((s.data.drop begin).takeWhile isAsciiWhitespace).length
    let b := begin + skipped
    let tok := (s.data.drop b).takeWhile fun c => !isAsciiWhitespace c
    if tok.length = 0 then none
    else if b + tok.length = s.length then some (⟨tok⟩, s.length)
    else some (⟨tok⟩, b + tok.length)

/-- `StringBuffer::next_token` (on `None` the buffer is left unchanged). -/
def StringBuffer.nextToken (sb : StringBuffer) : Option (String × StringBuffer) :=
  match sb.buff with
  | some s => (findNextToken sb.begin s).map fun p => (p.1, { sb with begin := p.2 })
  | none => none

/-- `StringBuffer::get_buffer`: `take` the buffer; return it whole if fresh or
empty, the unread remainder if partially consumed, `None` if exhausted. -/
def StringBuffer.getBuffer (sb : StringBuffer) : Option String × StringBuffer :=
  let sb' : StringBuffer := { sb with buff := none }
  match sb.buff with
  | some s =>
    (if s.length = 0 || sb.begin = 0 then some s
     else if sb.begin = s.length then none
     else some ⟨s.data.drop sb.begin⟩, sb')
  | none => (none, sb')

/-- `read_from_stdin`: read a line (EOF if none), drop its last character
(`buff.pop()`), reset the cursor. -/
def readFromStdin (stdin : List String) : Except ReadError (StringBuffer × List String) :=
  match stdin with
  | [] => .error .eof
  | l :: rest => .ok (⟨some ⟨l.data.dropLast⟩, 0⟩, rest)

/-- `LineReader::next_string`: loop taking the buffer, refilling from stdin
when exhausted. -/
def nextString : StringBuffer → List String →
    Except ReadError (String × StringBuffer × List String)
  | sb, stdin =>
    match sb.getBuffer with
    | (some s, sb') => .ok (s, sb', stdin)
    | (none, _) =>
      match stdin with
      | [] => .error .eof
      | l :: rest => nextString ⟨some ⟨l.data.dropLast⟩, 0⟩ rest

/-- `LineReader::next::<T>`: loop taking the next token, refilling from stdin
when the buffer has none; a token that fails to parse is a kind-specific
parse error. -/
def nextTyped (parse : String → Option α) (mkErr : String → ReadError) :
    StringBuffer → List String → Except ReadError (α × StringBuffer × List String)
  | sb, stdin =>
    match sb.nextToken with
    | some (tok, sb') =>
      match parse tok with
      | some v => .ok (v, sb', stdin)
      | none => .error (mkErr tok)
    | none =>
      match stdin with
      | [] => .error .eof
      | l :: rest => nextTyped parse mkErr ⟨some ⟨l.data.dropLast⟩, 0⟩ rest

/-- Numeric value of a digit list. -/
def digitsVal (cs : List Char) : Nat :=
  cs.foldl (fun a c => a * 10 + (c.toNat - 48)) 0

/-- Rust's `bool::from_str`: exactly `true` or `false`. -/
def parseBoolToken (s : String) : Option Bool :=
  if s = "true" then some true else if s = "false" then some false else none

/-- Rust's `i32::from_str`: optional sign, decimal digits, range check. -/
def parseI32Token (s : String) : Option Int :=
  let core := fun (neg : Bool) (ds : List Char) =>
    if ds.isEmpty || !(ds.all Char.isDigit) then none
    else
      let v : Int := if neg then -(digitsVal ds : Int) else (digitsVal ds : Int)
      if -(2 ^ 31) ≤ v ∧ v < 2 ^ 31 then some v else none
  match s.data with
  | '+' :: cs => core false cs
  | '-' :: cs => core true cs
  | cs => core false cs

/-- Model of `f64::from_str` on the plain-decimal fragment (optional sign,
digits, optional fraction); exponents and special values are outside the
fragment the programs under verification exercise. -/
def parseF64Token (s : String) : Option Float :=
  let core := fun (neg : Bool) (cs : List Char) =>
    let ip := cs.takeWhile Char.isDigit
    let rest := cs.drop ip.length
    let conv := fun (n fn fl : Nat) =>
      let v := Float.ofNat n + Float.ofNat fn / Float.ofNat (10 ^ fl)
      some (if neg then -v else v)
    match rest with
    | [] => if ip.isEmpty then none else conv (digitsVal ip) 0 0
    | '.' :: frac =>
      if (ip.isEmpty && frac.isEmpty) || !(frac.all Char.isDigit) then none
      else conv (digitsVal ip) (digitsVal frac) frac.length
    | _ => none
  match s.data with
  | '+' :: cs => core false cs
  | '-' :: cs => core true cs
  | cs => core false cs

/-- `LineReader::next_bool`. -/
def nextBool (sb : StringBuffer) (stdin : List String) :
    Except ReadError (Bool × StringBuffer × List String) :=
  nextTyped parseBoolToken .boolParseError sb stdin

/-- `LineReader::next_i32`. -/
def nextI32 (sb : StringBuffer) (stdin : List String) :
    Except ReadError (Int × StringBuffer × List String) :=
  nextTyped parseI32Token .intParseError sb stdin

/-- `LineReader::next_f64`. -/
def nextF64 (sb : StringBuffer) (stdin : List String) :
    Except ReadError (Float × StringBuffer × List String) :=
  nextTyped parseF64Token .realParseError sb stdin

/-! ## engine.rs -/

/-- `LOCAL_MASK = 1 << (count_zeros(0u16) - 1) = 1 << 15`. -/
def LOCAL_MASK : Nat := 2 ^ 15

structure EngineStack where
  intStack : List Int
  realStack : List Float
  boolStack : List Bool
  strStack : ReferenceStack
deriving Repr

def EngineStack.newStack : EngineStack := ⟨[], [], [], ⟨[]⟩⟩

structure EngineMemory where
  intMem : List Int
  realMem : List Float
  boolMem : List Bool
  strMem : List Nat
deriving Repr

/-- `EngineMemory::new`: zero-initialised typed vectors. -/
def EngineMemory.newMem (size : MemorySize) : EngineMemory :=
  ⟨List.replicate size.integerCount 0, List.replicate size.realCount 0.0,
   List.replicate size.booleanCount false, List.replicate size.stringCount 0⟩

structure Record where
  returnIndex : Nat
  returnBlock : Block
  funcMem : EngineMemory
deriving Repr

/-- `Record::new`: the return block is captured at `NewRecord` time. -/
def Record.new (returnBlock : Block) (funcMemSize : MemorySize) : Record :=
  ⟨0, returnBlock, EngineMemory.newMem funcMemSize⟩

/-- `get_value`: global vector when the LOCAL bit is clear, else the local
vector (panic when absent) at the masked index; `Vec::get().unwrap()` panics
out of bounds. -/
def getValue (glob : List α) (loc : Option (List α)) (addr : Nat) : Option α :=
  if addr &&& LOCAL_MASK = 0 then glob.get? addr
  else
    match loc with
    | none => none
    | some l => l.get? (addr - LOCAL_MASK)

/-- `insert_and_get_prev`: read the previous value then overwrite;
`map[addr] = value` panics out of bounds. -/
def insertAndGetPrev (map : List α) (addr : Nat) (value : α) :
    Option (List α × Option α) :=
  let output := map.get? addr
  if addr < map.length then some (map.set addr value, output) else none

/-- `set_value`: like `get_value` but writing; returns the updated global and
local vectors and the previous cell value. -/
def setValue (glob : List α) (loc : Option (List α)) (addr : Nat) (value : α) :
    Option (List α × Option (List α) × Option α) :=
  if addr &&& LOCAL_MASK = 0 then
    (insertAndGetPrev glob addr value).map fun p => (p.1, loc, p.2)
  else
    match loc with
    | none => none
    | some l =>
      (insertAndGetPrev l (addr - LOCAL_MASK) value).map fun p => (glob, some p.1, p.2)

/-- `clean_prev`: decrement the previous handle, if any. -/
def cleanPrev (prev : Option Nat) (strMem : StringMemory) : StringMemory :=
  match prev with
  | some p => strMem.decrement p
  | none => strMem

/-- `unary_operator`: logical NOT on Bool, arithmetic negation on
Integer/Real; `Str` is `unreachable!()`. -/
def unaryOperator (kind : Kind) (stack : EngineStack) : Option EngineStack :=
  match kind with
  | .bool =>
    match stack.boolStack with
    | [] => none
    | tmp :: rest => some { stack with boolStack := (!tmp) :: rest }
  | .integer =>
    match stack.intStack with
    | [] => none
    | tmp :: rest => some { stack with intStack := wrap32 (-tmp) :: rest }
  | .real =>
    match stack.realStack with
    | [] => none
    | tmp :: rest => some { stack with realStack := (-tmp) :: rest }
  | .str => none

/-- `run_jump`: `Jump` always takes the label target, `JumpTrue`/`JumpFalse`
pop a boolean and take it conditionally; other control ops are
`unreachable!()` here. -/
def runJump (j : ControlFlow) (curr nxt : Nat) (stack : List Bool) :
    Option (Nat × List Bool) :=
  match j with
  | .jump => some (nxt, stack)
  | .jumpTrue =>
    match stack with
    | [] => none
    | b :: rest => some (if b then nxt else curr, rest)
  | .jumpFalse =>
    match stack with
    | [] => none
    | b :: rest => some (if !b then nxt else curr, rest)
  | _ => none

/-- `binary_rel_operation` at `i32`. -/
def binaryRelOperationInt (op : RelationalOperator) (lhs rhs : Int) : Bool :=
  match op with
  | .greatEq => decide (lhs ≥ rhs)
  | .greater => decide (lhs > rhs)
  | .lessEq => decide (lhs ≤ rhs)
  | .less => decide (lhs < rhs)
  | .equal => decide (lhs = rhs)
  | .notEqual => decide (lhs ≠ rhs)

/-- `binary_rel_operation` at `f64` (IEEE comparisons). -/
def binaryRelOperationFloat (op : RelationalOperator) (lhs rhs : Float) : Bool :=
  match op with
  | .greatEq => lhs ≥ rhs
  | .greater => lhs > rhs
  | .lessEq => lhs ≤ rhs
  | .less => lhs < rhs
  | .equal => lhs == rhs
  | .notEqual => !(lhs == rhs)

/-- `binary_rel_operation` at `&str` (lexicographic; byte order and character
order agree on UTF-8). -/
def binaryRelOperationStr (op : RelationalOperator) (lhs rhs : String) : Bool :=
  match op with
  | .greatEq => !decide (lhs < rhs)
  | .greater => decide (rhs < lhs)
  | .lessEq => !decide (rhs < lhs)
  | .less => decide (lhs < rhs)
  | .equal => lhs == rhs
  | .notEqual => !(lhs == rhs)

/-- `binary_rel_operation` at `bool` (`false < true`). -/
def binaryRelOperationBool (op : RelationalOperator) (lhs rhs : Bool) : Bool :=
  match op with
  | .greatEq => lhs || !rhs
  | .greater => lhs && !rhs
  | .lessEq => !lhs || rhs
  | .less => !lhs && rhs
  | .equal => lhs == rhs
  | .notEqual => lhs != rhs

/-- `math_operation` at `i32`: pop rhs then lhs; add/sub/mul wrap (release
semantics), division panics on zero divisor or `MIN / -1`. -/
def mathOperationInt (op : MathOperator) (stack : List Int) :
    Option (Int × List Int) :=
  match stack with
  | rhs :: lhs :: rest =>
    match op with
    | .add => some (wrap32 (lhs + rhs), rest)
    | .sub => some (wrap32 (lhs - rhs), rest)
    | .mul => some (wrap32 (lhs * rhs), rest)
    | .div =>
      if rhs = 0 ∨ (lhs = -(2 ^ 31) ∧ rhs = -1) then none
      else some (Int.tdiv lhs rhs, rest)
  | _ => none

/-- `math_operation` at `f64`. -/
def mathOperationFloat (op : MathOperator) (stack : List Float) :
    Option (Float × List Float) :=
  match stack with
  | rhs :: lhs :: rest =>
    match op with
    | .add => some (lhs + rhs, rest)
    | .sub => some (lhs - rhs, rest)
    | .mul => some (lhs * rhs, rest)
    | .div => some (lhs / rhs, rest)
  | _ => none

/-- `rel_operation` at `i32`: pop rhs then lhs, compare. -/
def relOperationInt (op : RelationalOperator) (stack : List Int) :
    Option (Bool × List Int) :=
  match stack with
  | rhs :: lhs :: rest => some (binaryRelOperationInt op lhs rhs, rest)
  | _ => none

/-- `rel_operation` at `f64`. -/
def relOperationFloat (op : RelationalOperator) (stack : List Float) :
    Option (Bool × List Float) :=
  match stack with
  | rhs :: lhs :: rest => some (binaryRelOperationFloat op lhs rhs, rest)
  | _ => none

/-- `rel_operation` at `bool`. -/
def relOperationBool (op : RelationalOperator) (stack : List Bool) :
    Option (Bool × List Bool) :=
  match stack with
  | rhs :: lhs :: rest => some (binaryRelOperationBool op lhs rhs, rest)
  | _ => none

/-- `full_math_operation` at `i32`: math results go back on the number stack,
relational results on the boolean stack. -/
def fullMathOperationInt (op : Operator) (numbers : List Int) (booleans : List Bool) :
    Option (List Int × List Bool) :=
  match op with
  | .math m => (mathOperationInt m numbers).map fun p => (p.1 :: p.2, booleans)
  | .rel r => (relOperationInt r numbers).map fun p => (p.2, p.1 :: booleans)

/-- `full_math_operation` at `f64`. -/
def fullMathOperationFloat (op : Operator) (numbers : List Float) (booleans : List Bool) :
    Option (List Float × List Bool) :=
  match op with
  | .math m => (mathOperationFloat m numbers).map fun p => (p.1 :: p.2, booleans)
  | .rel r => (relOperationFloat r numbers).map fun p => (p.2, p.1 :: booleans)

/-- Model of Rust's saturating `f64 as i32` cast (NaN to 0, truncation toward
zero, saturation at the `i32` bounds). -/
def floatToI32 (n : Float) : Int :=
  if n.isNaN then 0
  else if n ≥ 0 then Int.ofNat (min n.toUInt64.toNat (2 ^ 31 - 1))
  else -Int.ofNat (min (-n).toUInt64.toNat (2 ^ 31))

/-- `{}`-formatting of a `bool`. -/
def formatBool (b : Bool) : String := if b then "true" else "false"

/-- `{}`-formatting of an `i32`. -/
def formatInt (i : Int) : String := toString i

/-- Model of `{}`-formatting of an `f64` (external textual convention). -/
def formatFloat (r : Float) : String := toString r

/-- `memory_load`: read the addressed cell of the kind's typed vector and push
it on the matching operand stack; a `Str` load pushes through the reference
stack (incrementing the handle). -/
def memoryLoad (k : Kind) (addr : Nat) (stack : EngineStack) (global : EngineMemory)
    (localMem : Option EngineMemory) (strMem : StringMemory) :
    Option (EngineStack × StringMemory) :=
  match k with
  | .bool =>
    (getValue global.boolMem (localMem.map (·.boolMem)) addr).map fun b =>
      ({ stack with boolStack := b :: stack.boolStack }, strMem)
  | .integer =>
    (getValue global.intMem (localMem.map (·.intMem)) addr).map fun i =>
      ({ stack with intStack := i :: stack.intStack }, strMem)
  | .real =>
    (getValue global.realMem (localMem.map (·.realMem)) addr).map fun r =>
      ({ stack with realStack := r :: stack.realStack }, strMem)
  | .str =>
    match getValue global.strMem (localMem.map (·.strMem)) addr with
    | none => none
    | some s =>
      (stack.strStack.push strMem s).map fun p =>
        ({ stack with strStack := p.1 }, p.2)

/-- `memory_store`: pop a value of the kind and write it to the addressed
cell; a `Str` store pops through the reference stack (which decrements), then
increments the stored handle and decrements the previous cell handle.
Returns the updated operand stacks, global memory, local memory and pool. -/
def memoryStore (k : Kind) (addr : Nat) (stack : EngineStack) (global : EngineMemory)
    (localMem : Option EngineMemory) (strMem : StringMemory) :
    Option (EngineStack × EngineMemory × Option EngineMemory × StringMemory) :=
  match k with
  | .bool =>
    match stack.boolStack with
    | [] => none
    | b :: rest =>
      match setValue global.boolMem (localMem.map (·.boolMem)) addr b with
      | none => none
      | some (g, l, _) =>
        some ({ stack with boolStack := rest }, { global with boolMem := g },
          (match localMem, l with
           | some em, some v => some { em with boolMem := v }
           | _, _ => localMem), strMem)
  | .integer =>
    match stack.intStack with
    | [] => none
    | b :: rest =>
      match setValue global.intMem (localMem.map (·.intMem)) addr b with
      | none => none
      | some (g, l, _) =>
        some ({ stack with intStack := rest }, { global with intMem := g },
          (match localMem, l with
           | some em, some v => some { em with intMem := v }
           | _, _ => localMem), strMem)
  | .real =>
    match stack.realStack with
    | [] => none
    | b :: rest =>
      match setValue global.realMem (localMem.map (·.realMem)) addr b with
      | none => none
      | some (g, l, _) =>
        some ({ stack with realStack := rest }, { global with realMem := g },
          (match localMem, l with
           | some em, some v => some { em with realMem := v }
           | _, _ => localMem), strMem)
  | .str =>
    match stack.strStack.pop strMem with
    | none => none
    | some (b, rs, m1) =>
      match m1.increment b with
      | none => none
      | some m2 =>
        match setValue global.strMem (localMem.map (·.strMem)) addr b with
        | none => none
        | some (g, l, prev) =>
          some ({ stack with strStack := rs }, { global with strMem := g },
            (match localMem, l with
             | some em, some v => some { em with strMem := v }
             | _, _ => localMem), cleanPrev prev m2)

/-- `load_constant`: push the constant on the matching stack; a `Str`
constant is pushed through the reference stack. -/
def loadConstant (load : Constant) (stack : EngineStack) (strMem : StringMemory) :
    Option (EngineStack × StringMemory) :=
  match load with
  | .bool b => some ({ stack with boolStack := b :: stack.boolStack }, strMem)
  | .integer i => some ({ stack with intStack := i :: stack.intStack }, strMem)
  | .real r => some ({ stack with realStack := r :: stack.realStack }, strMem)
  | .str s =>
    (stack.strStack.push strMem s).map fun p => ({ stack with strStack := p.1 }, p.2)

/-- Result of the `input` helper: success, reader error, or engine panic. -/
inductive IoResult (α : Type) where
  | ok (a : α)
  | err (e : ReadError)
  | fatalErr
deriving Repr

/-- `input`: read a typed value and push it; for `Str`, insert the line as a
dynamic pool entry, push its handle through the reference stack, then drop
the insertion reference. -/
def inputCmd (k : Kind) (stack : EngineStack) (sb : StringBuffer) (stdin : List String)
    (strMem : StringMemory) :
    IoResult (EngineStack × StringBuffer × List String × StringMemory) :=
  match k with
  | .bool =>
    match nextBool sb stdin with
    | .error e => .err e
    | .ok (tmp, sb', rest) =>
      .ok ({ stack with boolStack := tmp :: stack.boolStack }, sb', rest, strMem)
  | .integer =>
    match nextI32 sb stdin with
    | .error e => .err e
    | .ok (tmp, sb', rest) =>
      .ok ({ stack with intStack := tmp :: stack.intStack }, sb', rest, strMem)
  | .real =>
    match nextF64 sb stdin with
    | .error e => .err e
    | .ok (tmp, sb', rest) =>
      .ok ({ stack with realStack := tmp :: stack.realStack }, sb', rest, strMem)
  | .str =>
    match nextString sb stdin with
    | .error e => .err e
    | .ok (tmp, sb', rest) =>
      let (idx, m1) := strMem.insertString tmp
      match stack.strStack.push m1 idx with
      | none => .fatalErr
      | some (rs, m2) =>
        .ok ({ stack with strStack := rs }, sb', rest, m2.decrement idx)

/-- `output`: pop a value of the kind and produce its textual form; a `Str`
output pops through the reference stack and resolves the handle. -/
def outputCmd (k : Kind) (stack : EngineStack) (strMem : StringMemory) :
    Option (EngineStack × StringMemory × String) :=
  match k with
  | .bool =>
    match stack.boolStack with
    | [] => none
    | b :: rest => some ({ stack with boolStack := rest }, strMem, formatBool b)
  | .integer =>
    match stack.intStack with
    | [] => none
    | i :: rest => some ({ stack with intStack := rest }, strMem, formatInt i)
  | .real =>
    match stack.realStack with
    | [] => none
    | r :: rest => some ({ stack with realStack := rest }, strMem, formatFloat r)
  | .str =>
    match stack.strStack.pop strMem with
    | none => none
    | some (idx, rs, m1) =>
      match m1.getString idx with
      | none => none
      | some s => some ({ stack with strStack := rs }, m1, s)

/-- `handle_flush`: `Flush` is textually invisible, `NewLine` emits a
newline. -/
def handleFlush (mode : FlushMode) (out : List String) : List String :=
  match mode with
  | .flush => out
  | .newLine => out ++ ["\n"]

/-- The full engine state of `run_program`'s loop. -/
structure EngineState where
  prog : Program
  progMem : ProgramMemory
  stackVect : List Record
  currBlock : Block
  index : Nat
  globalMemory : EngineMemory
  engineStack : EngineStack
  stringMemory : StringMemory
  readerBuff : StringBuffer
  stdin : List String
  nextRecord : Option Record
  forLoopStack : List Int
  stdout : List String
deriving Repr

/-- Result of dispatching one command: continue, `Exit` (break), fatal panic,
or a reader error (`RuntimeError::ReadError`). -/
inductive StepResult where
  | ok (s : EngineState)
  | halt (s : EngineState)
  | fatal
  | readErr (e : ReadError)
deriving Repr

/-- The dispatch `match` of `run_program`'s loop body, applied to the state
in which `index` has already been advanced past the command and the pool has
been cleaned. -/
def stepCmd (cmd : Command) (s : EngineState) : StepResult :=
  match cmd with
  | .integer op =>
    match fullMathOperationInt op s.engineStack.intStack s.engineStack.boolStack with
    | none => .fatal
    | some (ns, bs) =>
      .ok { s with engineStack := { s.engineStack with intStack := ns, boolStack := bs } }
  | .real op =>
    match fullMathOperationFloat op s.engineStack.realStack s.engineStack.boolStack with
    | none => .fatal
    | some (ns, bs) =>
      .ok { s with engineStack := { s.engineStack with realStack := ns, boolStack := bs } }
  | .strCompare op =>
    match s.stringMemory.binaryOperation (binaryRelOperationStr op) s.engineStack.strStack with
    | none => .fatal
    | some (res, st, m) =>
      .ok { s with
            stringMemory := m,
            engineStack := { s.engineStack with
                             strStack := st,
                             boolStack := res :: s.engineStack.boolStack } }
  | .boolCompare op =>
    match relOperationBool op s.engineStack.boolStack with
    | none => .fatal
    | some (res, bs) =>
      .ok { s with engineStack := { s.engineStack with boolStack := res :: bs } }
  | .castInt =>
    match s.engineStack.realStack with
    | [] => .fatal
    | n :: rest =>
      .ok { s with
            engineStack := { s.engineStack with
                             realStack := rest,
                             intStack := floatToI32 n :: s.engineStack.intStack } }
  | .castReal =>
    match s.engineStack.intStack with
    | [] => .fatal
    | i :: rest =>
      .ok { s with
            engineStack := { s.engineStack with
                             intStack := rest,
                             realStack := Float.ofInt i :: s.engineStack.realStack } }
  | .memoryLoad load addr =>
    match memoryLoad load addr s.engineStack s.globalMemory
        ((s.stackVect.head?).map (·.funcMem)) s.stringMemory with
    | none => .fatal
    | some (st, m) => .ok { s with engineStack := st, stringMemory := m }
  | .memoryStore store addr =>
    match memoryStore store addr s.engineStack s.globalMemory
        ((s.stackVect.head?).map (·.funcMem)) s.stringMemory with
    | none => .fatal
    | some (st, g, l, m) =>
      .ok { s with
            engineStack := st, globalMemory := g, stringMemory := m,
            stackVect :=
              match s.stackVect, l with
              | top :: rest, some lm => { top with funcMem := lm } :: rest
              | sv, _ => sv }
  | .control ctrl addr =>
    match ctrl with
    | .call =>
      match s.nextRecord with
      | some r =>
        match s.prog.func.get? addr with
        | none => .fatal
        | some blk =>
          .ok { s with
                currBlock := blk, index := 0,
                stackVect := { r with returnIndex := s.index } :: s.stackVect,
                nextRecord := none }
      | none => .ok s
    | .ret =>
      match s.stackVect with
      | top :: rest =>
        .ok { s with
              index := top.returnIndex, currBlock := top.returnBlock,
              stackVect := rest,
              stringMemory := s.stringMemory.removeStrings top.funcMem.strMem }
      | [] => .fatal
    | .label => .ok s
    | jumpOp =>
      match labelLookup s.currBlock.labels addr with
      | none => .fatal
      | some nextAddr =>
        match runJump jumpOp s.index nextAddr s.engineStack.boolStack with
        | none => .fatal
        | some (idx, bs) =>
          .ok { s with
                index := idx,
                engineStack := { s.engineStack with boolStack := bs } }
  | .input k =>
    match inputCmd k s.engineStack s.readerBuff s.stdin s.stringMemory with
    | .err e => .readErr e
    | .fatalErr => .fatal
    | .ok (st, sb, rest, m) =>
      .ok { s with
            engineStack := st, readerBuff := sb, stdin := rest,
            stringMemory := m }
  | .output k =>
    match outputCmd k s.engineStack s.stringMemory with
    | none => .fatal
    | some (st, m, txt) =>
      .ok { s with engineStack := st, stringMemory := m, stdout := s.stdout ++ [txt] }
  | .flush mode => .ok { s with stdout := handleFlush mode s.stdout }
  | .exit => .halt s
  | .constantLoad load =>
    match loadConstant load s.engineStack s.stringMemory with
    | none => .fatal
    | some (st, m) => .ok { s with engineStack := st, stringMemory := m }
  | .storeParam k addr =>
    match s.nextRecord with
    | some record =>
      match memoryStore k addr s.engineStack s.globalMemory (some record.funcMem)
          s.stringMemory with
      | none => .fatal
      | some (st, g, l, m) =>
        .ok { s with
              engineStack := st, globalMemory := g, stringMemory := m,
              nextRecord := some
                (match l with
                 | some lm => { record with funcMem := lm }
                 | none => record) }
    | none => .fatal
  | .newRecord fId =>
    match s.nextRecord with
    | none =>
      match s.progMem.func.get? fId with
      | none => .fatal
      | some memSize => .ok { s with nextRecord := some (Record.new s.currBlock memSize) }
    | some _ => .fatal
  | .forControl control =>
    match processForCommand control s.forLoopStack s.engineStack.intStack with
    | none => .fatal
    | some (fl, is) =>
      .ok { s with
            forLoopStack := fl,
            engineStack := { s.engineStack with intStack := is } }
  | .unary kind =>
    match unaryOperator kind s.engineStack with
    | none => .fatal
    | some st => .ok { s with engineStack := st }

/-- Outcome of `run_program`: `Ok(())` with the final state, a panic, a
runtime (reader) error, or fuel exhaustion of the model. -/
inductive RunResult where
  | ok (s : EngineState)
  | fatal
  | err (e : ReadError)
  | fuelOut (s : EngineState)
deriving Repr

/-- `run_program`'s loop: while `index` is inside the current block, fetch the
command, advance `index`, clean the pool, dispatch. -/
def runLoop : Nat → EngineState → RunResult
  | 0, s => .fuelOut s
  | fuel + 1, s =>
    if h : s.index < s.currBlock.code.length then
      match stepCmd (s.currBlock.code.get ⟨s.index, h⟩)
          { s with index := s.index + 1, stringMemory := s.stringMemory.clean } with
      | .ok s2 => runLoop fuel s2
      | .halt s2 => .ok s2
      | .fatal => .fatal
      | .readErr e => .err e
    else .ok s

/-- `run_program`: initial state and loop. -/
def runProgram (prog : Program) (progMem : ProgramMemory) (stringMemory : StringMemory)
    (stdin : List String) (fuel : Nat) : RunResult :=
  runLoop fuel
    { prog := prog, progMem := progMem, stackVect := [], currBlock := prog.body,
      index := 0, globalMemory := EngineMemory.newMem progMem.main,
      engineStack := EngineStack.newStack, stringMemory := stringMemory,
      readerBuff := ⟨none, 0⟩, stdin := stdin, nextRecord := none,
      forLoopStack := [], stdout := [] }

/-! ## Concrete states used to exercise the semantics -/

def emptyBlock : Block := ⟨[], []⟩

def emptyMemory : EngineMemory := ⟨[], [], [], []⟩

def emptyPool : StringMemory := ⟨[], 0⟩

/-- A minimal engine state: empty program, stacks, memory and pool. -/
def baseState : EngineState :=
  { prog := ⟨emptyBlock, []⟩, progMem := ⟨⟨0, 0, 0, 0⟩, []⟩, stackVect := [],
    currBlock := emptyBlock, index := 0, globalMemory := emptyMemory,
    engineStack := EngineStack.newStack, stringMemory := emptyPool,
    readerBuff := ⟨none, 0⟩, stdin := [], nextRecord := none,
    forLoopStack := [], stdout := [] }

/-- `baseState` with a prescribed boolean operand stack. -/
def boolState (bs : List Bool) : EngineState :=
  { baseState with engineStack := { EngineStack.newStack with boolStack := bs } }

/-- Concrete state with a pending activation record and one function block. -/
def c1CallState : EngineState :=
  { baseState with
    prog := ⟨emptyBlock, [emptyBlock]⟩, index := 5,
    nextRecord := some (Record.new emptyBlock ⟨0, 0, 0, 0⟩) }

/-- Concrete state: one activation record whose frame holds string cells
`[7, 7, 8]`, with handles 7 and 8 dynamic in the pool. -/
def c6RetState : EngineState :=
  { baseState with
    stackVect := [⟨4, emptyBlock, { emptyMemory with strMem := [7, 7, 8] }⟩],
    stringMemory := ⟨[(7, ⟨"a", 3, .dynamic⟩), (8, ⟨"b", 1, .dynamic⟩)], 9⟩ }

/-- Concrete state for the jump witness: label 3 at position 9, `true` on the
boolean stack. -/
def c9JumpState : EngineState :=
  { baseState with
    currBlock := ⟨[], [(3, 9)]⟩,
    engineStack := { EngineStack.newStack with boolStack := [true] } }

/-- Concrete state: empty current block, one live activation record whose
frame holds a string cell, and a dynamic pool entry. -/
def c10EndState : EngineState :=
  { baseState with
    stackVect := [⟨2, emptyBlock, { emptyMemory with strMem := [0] }⟩],
    stringMemory := ⟨[(0, ⟨"x", 1, .dynamic⟩)], 1⟩ }

/-- Concrete state with one `Exit` command, a static entry and a dead dynamic
entry in the pool. -/
def c7CleanState : EngineState :=
  { baseState with
    currBlock := ⟨[.exit], []⟩,
    stringMemory := ⟨[(0, ⟨"lit", 1, .static⟩), (1, ⟨"tmp", 0, .dynamic⟩)], 2⟩ }

/-- Concrete state whose reader buffer holds the line `hi`. -/
def c8InputState : EngineState :=
  { baseState with readerBuff := ⟨some "hi", 0⟩ }

/-- Concrete state: string stack holds handle 0 (rc 2), global string cell 0
holds handle 1 (rc 1). -/
def c3StoreState : EngineState :=
  { baseState with
    engineStack := { EngineStack.newStack with strStack := ⟨[0]⟩ },
    globalMemory := { emptyMemory with strMem := [1] },
    stringMemory := ⟨[(0, ⟨"a", 2, .dynamic⟩), (1, ⟨"b", 1, .dynamic⟩)], 2⟩ }

/-- The state `c3StoreState` reaches by executing `MemoryStore(Str, 0)`. -/
def c3StoreStateAfter : EngineState :=
  { c3StoreState with
    engineStack := { EngineStack.newStack with strStack := ⟨[]⟩ },
    globalMemory := { emptyMemory with strMem := [0] },
    stringMemory := ⟨[(0, ⟨"a", 2, .dynamic⟩), (1, ⟨"b", 0, .dynamic⟩)], 2⟩ }

/-- Concrete state for a local-cell `Str` store: string stack holds handle 0
and the top activation record's string cells hold handle 1 at local index 0
(addressed as `2^15 + 0` with the LOCAL bit set). -/
def c3LocalStoreState : EngineState :=
  { baseState with
    stackVect := [⟨4, emptyBlock, { emptyMemory with strMem := [1] }⟩],
    engineStack := { EngineStack.newStack with strStack := ⟨[0]⟩ },
    stringMemory := ⟨[(0, ⟨"a", 2, .dynamic⟩), (1, ⟨"b", 1, .dynamic⟩)], 2⟩ }

/-- Modelled from the spec: the claimed dispatch of a logical `And` command —
pop two booleans (top is rhs), push their conjunction, all other engine state
unchanged. No `Command` variant of `command_definition.rs` has this
semantics; `program_load.rs` nevertheless constructs `Command::And`. -/
def specAndDispatch (s : EngineState) : StepResult :=
  match s.engineStack.boolStack with
  | rhs :: lhs :: rest =>
    .ok { s with engineStack := { s.engineStack with boolStack := (lhs && rhs) :: rest } }
  | _ => .fatal

/-- Modelled from the spec: the claimed dispatch of a logical `Or` command —
pop two booleans (top is rhs), push their disjunction. -/
def specOrDispatch (s : EngineState) : StepResult :=
  match s.engineStack.boolStack with
  | rhs :: lhs :: rest =>
    .ok { s with engineStack := { s.engineStack with boolStack := (lhs || rhs) :: rest } }
  | _ => .fatal

/-! ## Association-list (hash map) lemmas -/

/-- Sum of the refcounts stored in a buffer. -/
def listRefSum (l : List (Nat × StringValue)) : Nat :=
  (l.map fun p => p.2.refCount).sum

theorem lookupBuff_updateBuff_self (l : List (Nat × StringValue)) (k : Nat)
    (f : StringValue → StringValue) :
    lookupBuff (updateBuff l k f) k = (lookupBuff l k).map f := by
  induction l with
  | nil => simp [lookupBuff, updateBuff]
  | cons p rest ih =>
    by_cases hpk : p.1 = k
    · simp [lookupBuff, updateBuff, hpk, List.find?_cons]
    · simpa [lookupBuff, updateBuff, hpk, List.find?_cons] using ih

theorem lookupBuff_updateBuff_ne (l : List (Nat × StringValue)) (k k' : Nat)
    (f : StringValue → StringValue) (h : k' ≠ k) :
    lookupBuff (updateBuff l k f) k' = lookupBuff l k' := by
  induction l with
  | nil => simp [lookupBuff, updateBuff]
  | cons p rest ih =>
    have hkk' : ¬ k = k' := fun hc => h hc.symm
    by_cases hpk : p.1 = k
    · have hpk' : ¬ p.1 = k' := by rw [hpk]; exact hkk'
      simp [lookupBuff, updateBuff, hpk, hpk', hkk', h, List.find?_cons]
    · by_cases hpk' : p.1 = k'
      · simp [lookupBuff, updateBuff, hpk, hpk', hkk', h, List.find?_cons]
      · simpa [lookupBuff, updateBuff, hpk, hpk', hkk', h, List.find?_cons] using ih

theorem updateBuff_absent (l : List (Nat × StringValue)) (k : Nat)
    (f : StringValue → StringValue) (h : lookupBuff l k = none) :
    updateBuff l k f = l := by
  induction l with
  | nil => simp [updateBuff]
  | cons p rest ih =>
    by_cases hpk : p.1 = k
    · simp [lookupBuff, List.find?_cons, hpk] at h
    · simp only [lookupBuff, List.find?_cons, hpk, decide_eq_true_eq,
        if_neg, decide_eq_false_iff_not, not_false_eq_true] at h ⊢
      simp only [updateBuff, hpk, if_false]
      rw [ih]
      simpa [lookupBuff] using h

theorem lookupBuff_insertBuff_self (l : List (Nat × StringValue)) (k : Nat)
    (v : StringValue) : lookupBuff (insertBuff l k v) k = some v := by
  induction l with
  | nil => simp [lookupBuff, insertBuff, List.find?_cons]
  | cons p rest ih =>
    by_cases hpk : p.1 = k
    · simp [insertBuff, hpk, lookupBuff, List.find?_cons]
    · simpa [insertBuff, hpk, lookupBuff, List.find?_cons] using ih

theorem listRefSum_updateBuff (l : List (Nat × StringValue)) (k : Nat)
    (f : StringValue → StringValue) (v : StringValue)
    (h : lookupBuff l k = some v) :
    listRefSum (updateBuff l k f) + v.refCount = listRefSum l + (f v).refCount := by
  induction l with
  | nil => simp [lookupBuff] at h
  | cons p rest ih =>
    by_cases hpk : p.1 = k
    · have hv : p.2 = v := by
        simpa [lookupBuff, List.find?_cons, hpk] using h
      simp [updateBuff, hpk, listRefSum, hv]
      omega
    · have h' : lookupBuff rest k = some v := by
        simpa [lookupBuff, List.find?_cons, hpk] using h
      have := ih h'
      simp [updateBuff, hpk, listRefSum] at this ⊢
      omega

/-! ## String pool lemmas -/

theorem decrRef_dynamic (v : StringValue) (hd : v.strType = .dynamic) :
    (v.decrRef).refCount = v.refCount - 1 ∧ (v.decrRef).strType = .dynamic ∧
      (v.decrRef).string = v.string := by
  cases v with
  | mk s rc t =>
    cases t with
    | dynamic =>
      by_cases hrc : rc > 0 <;> simp [StringValue.decrRef, hrc]
      omega
    | static => simp at hd

theorem incrRef_dynamic (v : StringValue) (hd : v.strType = .dynamic) :
    (v.incrRef).refCount = v.refCount + 1 ∧ (v.incrRef).strType = .dynamic ∧
      (v.incrRef).string = v.string := by
  cases v with
  | mk s rc t =>
    cases t with
    | dynamic => simp [StringValue.incrRef]
    | static => simp at hd

theorem static_refUnchanged (v : StringValue) (hs : v.strType = .static) :
    v.decrRef = v ∧ v.incrRef = v := by
  cases v with
  | mk s rc t =>
    cases t with
    | dynamic => simp at hs
    | static => simp [StringValue.decrRef, StringValue.incrRef]

theorem decrement_absent (m : StringMemory) (h : Nat)
    (hh : lookupBuff m.buff h = none) : m.decrement h = m := by
  cases m with
  | mk buff idx => simp [StringMemory.decrement, updateBuff_absent _ _ _ hh]

theorem lookup_decrement_self (m : StringMemory) (h : Nat) :
    lookupBuff (m.decrement h).buff h = (lookupBuff m.buff h).map StringValue.decrRef := by
  simp [StringMemory.decrement, lookupBuff_updateBuff_self]

theorem lookup_decrement_ne (m : StringMemory) (h h' : Nat) (hne : h' ≠ h) :
    lookupBuff (m.decrement h).buff h' = lookupBuff m.buff h' := by
  simp [StringMemory.decrement, lookupBuff_updateBuff_ne _ _ _ _ hne]

/-- Effect of `remove_strings` on a dynamic handle: one saturating decrement
per occurrence of the handle among the frame's string cells. -/
theorem refCountOf_removeStrings (cells : List Nat) (m : StringMemory) (h : Nat)
    (v : StringValue) (hv : lookupBuff m.buff h = some v)
    (hd : v.strType = .dynamic) :
    refCountOf (m.removeStrings cells) h = v.refCount - cells.count h := by
  induction cells generalizing m v with
  | nil => simp [StringMemory.removeStrings, refCountOf, hv]
  | cons c cs ih =>
    have hfold : m.removeStrings (c :: cs) = (m.decrement c).removeStrings cs := by
      simp [StringMemory.removeStrings]
    rw [hfold]
    by_cases hch : c = h
    · subst hch
      have hlook : lookupBuff (m.decrement c).buff c = some v.decrRef := by
        simp [lookup_decrement_self, hv]
      obtain ⟨hrc, hdy, _⟩ := decrRef_dynamic v hd
      have := ih (m.decrement c) v.decrRef hlook hdy
      rw [this, hrc]
      simp [List.count_cons]
      omega
    · have hlook : lookupBuff (m.decrement c).buff h = some v := by
        rw [lookup_decrement_ne m c h (fun hc => hch hc.symm)]
        exact hv
      have := ih (m.decrement c) v hlook hd
      rw [this]
      have hhc : h ≠ c := fun hc => hch hc.symm
      have : (c :: cs).count h = cs.count h := by
        simp [List.count_cons, hhc]
      omega

theorem increment_of_lookup (m : StringMemory) (h : Nat) (v : StringValue)
    (hv : lookupBuff m.buff h = some v) :
    m.increment h = some { m with buff := updateBuff m.buff h StringValue.incrRef } := by
  simp [StringMemory.increment, hv]

theorem increment_absent (m : StringMemory) (h : Nat)
    (hv : lookupBuff m.buff h = none) : m.increment h = none := by
  simp [StringMemory.increment, hv]

theorem lookup_increment_self (m : StringMemory) (h : Nat) (v : StringValue)
    (m' : StringMemory) (hv : lookupBuff m.buff h = some v)
    (hm : m.increment h = some m') :
    lookupBuff m'.buff h = some v.incrRef := by
  rw [increment_of_lookup m h v hv] at hm
  cases hm
  simp [lookupBuff_updateBuff_self, hv]

theorem totalRefCount_eq (m : StringMemory) : totalRefCount m = listRefSum m.buff := rfl

theorem total_decrement_dynamic (m : StringMemory) (h : Nat) (v : StringValue)
    (hv : lookupBuff m.buff h = some v) (hd : v.strType = .dynamic)
    (hpos : 0 < v.refCount) :
    totalRefCount (m.decrement h) + 1 = totalRefCount m := by
  have hsum := listRefSum_updateBuff m.buff h StringValue.decrRef v hv
  obtain ⟨hrc, _, _⟩ := decrRef_dynamic v hd
  simp only [StringMemory.decrement, totalRefCount_eq] at *
  omega

theorem total_increment_dynamic (m : StringMemory) (h : Nat) (v : StringValue)
    (m' : StringMemory) (hv : lookupBuff m.buff h = some v)
    (hd : v.strType = .dynamic) (hm : m.increment h = some m') :
    totalRefCount m' = totalRefCount m + 1 := by
  rw [increment_of_lookup m h v hv] at hm
  cases hm
  have hsum := listRefSum_updateBuff m.buff h StringValue.incrRef v hv
  obtain ⟨hrc, _, _⟩ := incrRef_dynamic v hd
  simp only [totalRefCount_eq] at *
  omega

/-! ## `clean` lemmas -/

theorem lookup_filter_pos (l : List (Nat × StringValue)) (h : Nat) (v : StringValue)
    (hv : lookupBuff l h = some v) (hpos : 0 < v.refCount) :
    lookupBuff (l.filter fun p => p.2.refCount > 0) h = some v := by
  induction l with
  | nil => simp [lookupBuff] at hv
  | cons p rest ih =>
    by_cases hpk : p.1 = h
    · have hv' : p.2 = v := by simpa [lookupBuff, List.find?_cons, hpk] using hv
      subst hv'
      simp [lookupBuff, List.filter_cons, List.find?_cons, hpk, hpos]
    · have hv' : lookupBuff rest h = some v := by
        simpa [lookupBuff, List.find?_cons, hpk] using hv
      by_cases hp : p.2.refCount > 0 <;>
        simp [lookupBuff, List.filter_cons, List.find?_cons, hpk, hp] <;>
        simpa [lookupBuff] using ih hv'

theorem lookupBuff_eq_none_of_not_mem (l : List (Nat × StringValue)) (h : Nat)
    (hm : h ∉ l.map Prod.fst) : lookupBuff l h = none := by
  induction l with
  | nil => simp [lookupBuff]
  | cons p rest ih =>
    simp only [List.map_cons, List.mem_cons, not_or] at hm
    have hpk : ¬ p.1 = h := fun hc => hm.1 hc.symm
    simp only [lookupBuff, List.find?_cons, hpk]
    simpa [lookupBuff, hpk] using ih hm.2

theorem lookup_filter_zero (l : List (Nat × StringValue)) (h : Nat) (v : StringValue)
    (hnd : (l.map Prod.fst).Nodup) (hv : lookupBuff l h = some v)
    (hz : v.refCount = 0) :
    lookupBuff (l.filter fun p => p.2.refCount > 0) h = none := by
  induction l with
  | nil => simp [lookupBuff] at hv
  | cons p rest ih =>
    simp only [List.map_cons, List.nodup_cons] at hnd
    by_cases hpk : p.1 = h
    · have hv' : p.2 = v := by simpa [lookupBuff, List.find?_cons, hpk] using hv
      have hdrop : ¬ p.2.refCount > 0 := by rw [hv', hz]; omega
      have hnm : h ∉ (rest.filter fun q => q.2.refCount > 0).map Prod.fst := by
        intro hmem
        apply hnd.1
        rw [← hpk] at hmem
        obtain ⟨q, hq, hq1⟩ := List.mem_map.mp hmem
        exact List.mem_map.mpr ⟨q, (List.mem_filter.mp hq).1, hq1⟩
      simp only [List.filter_cons, hdrop, if_false, decide_eq_true_eq]
      simpa using lookupBuff_eq_none_of_not_mem _ h hnm
    · have hv' : lookupBuff rest h = some v := by
        simpa [lookupBuff, List.find?_cons, hpk] using hv
      by_cases hp : p.2.refCount > 0 <;>
        simp [lookupBuff, List.filter_cons, List.find?_cons, hpk, hp] <;>
        simpa [lookupBuff] using ih hnd.2 hv'

theorem lookup_clean_of_pos (m : StringMemory) (h : Nat) (v : StringValue)
    (hv : lookupBuff m.buff h = some v) (hpos : 0 < v.refCount) :
    lookupBuff m.clean.buff h = some v := by
  simpa [StringMemory.clean] using lookup_filter_pos m.buff h v hv hpos

theorem lookup_clean_iterate (n : Nat) (m : StringMemory) (h : Nat) (v : StringValue)
    (hv : lookupBuff m.buff h = some v) (hpos : 0 < v.refCount) :
    lookupBuff ((StringMemory.clean)^[n] m).buff h = some v := by
  induction n generalizing m with
  | zero => simpa using hv
  | succ n ih =>
    rw [Function.iterate_succ_apply]
    exact ih m.clean (lookup_clean_of_pos m h v hv hpos)

/-! ## Address-mask bridge -/

/-- For a 16-bit address word, masking with `LOCAL_MASK` tests exactly whether
the address is below `2^15`, i.e. whether the most significant bit is clear. -/
theorem and_localMask_eq_zero_iff (addr : Nat) (hb : addr < 65536) :
    (addr &&& LOCAL_MASK = 0) ↔ addr < 32768 := by
  have h1 := Nat.and_two_pow addr 15
  rw [Nat.testBit_to_div_mod] at h1
  have e : (2 : Nat) ^ 15 = 32768 := rfl
  rw [e] at h1
  have e' : LOCAL_MASK = 32768 := rfl
  rw [e', h1]
  by_cases hlt : addr < 32768
  · have h2 : addr / 32768 % 2 = 0 := by omega
    simp [h2, hlt]
  · have h2 : addr / 32768 % 2 = 1 := by omega
    simp [h2, hlt]

/-! ## Claim C1: Call dispatch -/

/-- C1 counterexample: dispatching `Control(Call, _)` with no pending
activation record does not abort; the command is silently skipped and the
state is returned unchanged. -/
theorem call_no_pending_silently_skips :
    stepCmd (.control .call 0) baseState = .ok baseState ∧
    stepCmd (.control .call 0) baseState ≠ .fatal := by
  have h1 : stepCmd (.control .call 0) baseState = .ok baseState := rfl
  refine ⟨h1, ?_⟩
  rw [h1]
  exact fun hc => StepResult.noConfusion hc

/-- C1 (amended): with a pending record, `Call` sets its `return_ip` to the
index of the instruction following the `Call`, pushes it, enters
`program.func[func_id]` at ip 0 and clears the pending record; with no
pending record the `Call` is a silent no-op. -/
theorem call_dispatch_semantics (s : EngineState) (fid : Nat) :
    (s.nextRecord = none → stepCmd (.control .call fid) s = .ok s) ∧
    (∀ r blk, s.nextRecord = some r → s.prog.func.get? fid = some blk →
      stepCmd (.control .call fid) s =
        .ok { s with
              currBlock := blk, index := 0,
              stackVect := { r with returnIndex := s.index } :: s.stackVect,
              nextRecord := none }) ∧
    (∀ fuel r blk (h : s.index < s.currBlock.code.length),
      s.currBlock.code.get ⟨s.index, h⟩ = .control .call fid →
      s.nextRecord = some r → s.prog.func.get? fid = some blk →
      runLoop (fuel + 1) s = runLoop fuel
        { s with
          currBlock := blk, index := 0,
          stringMemory := s.stringMemory.clean,
          stackVect := { r with returnIndex := s.index + 1 } :: s.stackVect,
          nextRecord := none }) := by
  refine ⟨fun h => by simp [stepCmd, h],
    fun r blk hr hb => by
      rw [List.get?_eq_getElem?] at hb
      simp [stepCmd, hr, hb],
    fun fuel r blk h hc hr hb => ?_⟩
  rw [List.get?_eq_getElem?] at hb
  rw [runLoop]
  rw [dif_pos h, hc]
  simp [stepCmd, hr, hb]

/-- C1 witness: the amended Call semantics at a concrete state. -/
theorem call_dispatch_semantics_witness :
    stepCmd (.control .call 0) c1CallState =
      .ok { c1CallState with
            currBlock := emptyBlock, index := 0,
            stackVect := { Record.new emptyBlock ⟨0, 0, 0, 0⟩ with
                           returnIndex := c1CallState.index } :: c1CallState.stackVect,
            nextRecord := none } :=
  (call_dispatch_semantics c1CallState 0).2.1 _ _ rfl rfl

/-! ## Claim C2: pool-miss behavior -/

/-- C2 counterexample: `decrement` of a handle that is not in the pool is a
silent no-op, not a fatal abort — on an empty pool and on a pool whose only
entry has a different handle. -/
theorem pool_miss_decrement_noop :
    StringMemory.decrement emptyPool 0 = emptyPool ∧
    StringMemory.decrement ⟨[(0, ⟨"x", 1, .dynamic⟩)], 1⟩ 5 =
      ⟨[(0, ⟨"x", 1, .dynamic⟩)], 1⟩ :=
  ⟨rfl, rfl⟩

/-- C2 (amended): on a handle absent from the pool, `get` and `increment`
abort with a fatal engine panic, while `decrement` silently leaves the pool
unchanged. -/
theorem pool_miss_behavior (m : StringMemory) (h : Nat)
    (hmiss : lookupBuff m.buff h = none) :
    m.getString h = none ∧ m.increment h = none ∧ m.decrement h = m :=
  ⟨by simp [StringMemory.getString, hmiss], increment_absent m h hmiss,
   decrement_absent m h hmiss⟩

/-- C2 witness: pool-miss behavior on the empty pool at handle 0. -/
theorem pool_miss_behavior_witness :
    lookupBuff emptyPool.buff 0 = none ∧
    (emptyPool.getString 0 = none ∧ emptyPool.increment 0 = none ∧
      emptyPool.decrement 0 = emptyPool) :=
  ⟨rfl, pool_miss_behavior emptyPool 0 rfl⟩

/-! ## Claim C6: Ret dispatch -/

/-- C6: `Ret` pops the top activation record, restores its return ip and
block, and applies one pool decrement per string cell of the destroyed frame
(so a dynamic handle's refcount drops by its number of occurrences among the
cells, saturating at zero); `Ret` on an empty call stack is fatal. -/
theorem ret_dispatch_semantics (s : EngineState) (a : Nat) :
    (s.stackVect = [] → stepCmd (.control .ret a) s = .fatal) ∧
    (∀ top rest, s.stackVect = top :: rest →
      stepCmd (.control .ret a) s =
        .ok { s with
              index := top.returnIndex, currBlock := top.returnBlock,
              stackVect := rest,
              stringMemory := s.stringMemory.removeStrings top.funcMem.strMem } ∧
      ∀ h v, lookupBuff s.stringMemory.buff h = some v → v.strType = .dynamic →
        refCountOf (s.stringMemory.removeStrings top.funcMem.strMem) h =
          v.refCount - top.funcMem.strMem.count h) := by
  refine ⟨fun h => by simp [stepCmd, h], fun top rest htop => ⟨by simp [stepCmd, htop], ?_⟩⟩
  intro h v hv hd
  exact refCountOf_removeStrings top.funcMem.strMem s.stringMemory h v hv hd

/-- C6 witness: returning from the concrete frame decrements handle 7 twice
and handle 8 once. -/
theorem ret_dispatch_semantics_witness :
    (stepCmd (.control .ret 0) c6RetState =
      .ok { c6RetState with
            index := 4, currBlock := emptyBlock, stackVect := [],
            stringMemory := c6RetState.stringMemory.removeStrings [7, 7, 8] }) ∧
    refCountOf (c6RetState.stringMemory.removeStrings [7, 7, 8]) 7 =
      3 - List.count 7 [7, 7, 8] ∧
    refCountOf (c6RetState.stringMemory.removeStrings [7, 7, 8]) 8 =
      1 - List.count 8 [7, 7, 8] :=
  ⟨((ret_dispatch_semantics c6RetState 0).2 _ _ rfl).1,
   ((ret_dispatch_semantics c6RetState 0).2 _ _ rfl).2 7 ⟨"a", 3, .dynamic⟩ rfl rfl,
   ((ret_dispatch_semantics c6RetState 0).2 _ _ rfl).2 8 ⟨"b", 1, .dynamic⟩ rfl rfl⟩

/-! ## Claim C9: jumps and labels -/

/-- C9: `JumpTrue` pops a boolean and jumps to the label target exactly when
it is true, `JumpFalse` exactly when it is false (ip otherwise stays at the
next instruction), `Jump` always jumps, and `Label` changes nothing. -/
theorem jump_dispatch_semantics (s : EngineState) (target t : Nat)
    (hlbl : labelLookup s.currBlock.labels target = some t) :
    (∀ b rest, s.engineStack.boolStack = b :: rest →
      stepCmd (.control .jumpTrue target) s =
        .ok { s with
              index := if b then t else s.index,
              engineStack := { s.engineStack with boolStack := rest } } ∧
      stepCmd (.control .jumpFalse target) s =
        .ok { s with
              index := if b then s.index else t,
              engineStack := { s.engineStack with boolStack := rest } }) ∧
    stepCmd (.control .jump target) s = .ok { s with index := t } ∧
    stepCmd (.control .label target) s = .ok s := by
  refine ⟨fun b rest hb => ⟨?_, ?_⟩, ?_, ?_⟩
  · cases b <;> simp [stepCmd, runJump, hlbl, hb]
  · cases b <;> simp [stepCmd, runJump, hlbl, hb]
  · simp [stepCmd, runJump, hlbl]
  · simp [stepCmd]

/-- C9 witness: the jump semantics at the concrete state. -/
theorem jump_dispatch_semantics_witness :
    (stepCmd (.control .jumpTrue 3) c9JumpState =
      .ok { c9JumpState with
            index := if true then 9 else c9JumpState.index,
            engineStack := { c9JumpState.engineStack with boolStack := [] } }) ∧
    stepCmd (.control .jump 3) c9JumpState = .ok { c9JumpState with index := 9 } ∧
    stepCmd (.control .label 3) c9JumpState = .ok c9JumpState :=
  ⟨((jump_dispatch_semantics c9JumpState 3 9 rfl).1 true [] rfl).1,
   (jump_dispatch_semantics c9JumpState 3 9 rfl).2.1,
   (jump_dispatch_semantics c9JumpState 3 9 rfl).2.2⟩

/-! ## Claim C10: falling off the end of a block -/

/-- C10: when ip reaches the end of the current block's command list, the
main loop stops and returns `Ok(())` with the state untouched — even with
activation records still on the call stack: nothing is restored and no frame
string handle is released. -/
theorem fall_off_end_returns_ok (fuel : Nat) (s : EngineState)
    (h : s.currBlock.code.length ≤ s.index) :
    runLoop (fuel + 1) s = .ok s := by
  rw [runLoop]
  rw [dif_neg (by omega)]

/-- C10 witness: a state inside a function frame with an empty block ends the
run as a success, frame and pool intact. -/
theorem fall_off_end_returns_ok_witness :
    c10EndState.currBlock.code.length ≤ c10EndState.index ∧
    runLoop 1 c10EndState = .ok c10EndState :=
  ⟨by decide, fall_off_end_returns_ok 0 c10EndState (by decide)⟩

/-! ## Claim C7: clean policy -/

/-- C7: a static pool entry survives a decrement followed by any number of
`clean` calls; a dynamic entry whose refcount is zero is removed by the next
`clean` (pool keys are unique, as for a hash map); and the engine's loop
applies `clean` exactly once, before dispatching, for every executed
command. -/
theorem clean_policy :
    (∀ (m : StringMemory) (h : Nat) (v : StringValue),
      lookupBuff m.buff h = some v → v.strType = .static → 0 < v.refCount →
      ∀ n, lookupBuff ((StringMemory.clean)^[n] (m.decrement h)).buff h = some v) ∧
    (∀ (m : StringMemory) (h : Nat) (v : StringValue),
      (m.buff.map Prod.fst).Nodup →
      lookupBuff m.buff h = some v → v.strType = .dynamic → v.refCount = 0 →
      lookupBuff m.clean.buff h = none) ∧
    (∀ (fuel : Nat) (s : EngineState) (h : s.index < s.currBlock.code.length),
      runLoop (fuel + 1) s =
        match stepCmd (s.currBlock.code.get ⟨s.index, h⟩)
            { s with index := s.index + 1, stringMemory := s.stringMemory.clean } with
        | .ok s2 => runLoop fuel s2
        | .halt s2 => .ok s2
        | .fatal => .fatal
        | .readErr e => .err e) := by
  refine ⟨fun m h v hv hs hpos n => ?_, fun m h v hnd hv hd hz => ?_, fun fuel s h => ?_⟩
  · have hdec : lookupBuff (m.decrement h).buff h = some v := by
      rw [lookup_decrement_self, hv]
      simp [(static_refUnchanged v hs).1]
    exact lookup_clean_iterate n (m.decrement h) h v hdec hpos
  · simpa [StringMemory.clean] using lookup_filter_zero m.buff h v hnd hv hz
  · rw [runLoop, dif_pos h]

/-- C7 witness: at the concrete pool, a decremented static entry survives two
cleans, the dead dynamic entry is dropped by one clean, and the loop cleans
before dispatching the `Exit`. -/
theorem clean_policy_witness :
    lookupBuff ((StringMemory.clean)^[2]
        (c7CleanState.stringMemory.decrement 0)).buff 0 = some ⟨"lit", 1, .static⟩ ∧
    lookupBuff c7CleanState.stringMemory.clean.buff 1 = none ∧
    runLoop 1 c7CleanState =
      match stepCmd .exit { c7CleanState with
          index := 1, stringMemory := c7CleanState.stringMemory.clean } with
      | .ok s2 => runLoop 0 s2
      | .halt s2 => .ok s2
      | .fatal => .fatal
      | .readErr e => .err e :=
  ⟨clean_policy.1 c7CleanState.stringMemory 0 ⟨"lit", 1, .static⟩ rfl rfl (by decide) 2,
   clean_policy.2.1 c7CleanState.stringMemory 1 ⟨"tmp", 0, .dynamic⟩ (by decide) rfl rfl rfl,
   clean_policy.2.2 0 c7CleanState (by decide)⟩

/-! ## Claim C5: address decoding -/

/-- C5: for a 16-bit address, a clear top bit routes `get_value`/`set_value`
to the global typed vector at the address itself; a set top bit routes to the
local vector at the address minus `2^15`, and panics when there is no local
frame — in particular `MemoryLoad`/`MemoryStore` with the LOCAL bit set and
an empty call stack abort fatally. -/
theorem address_decoding (α : Type) (glob : List α) (loc : Option (List α))
    (addr : Nat) (v : α) (hb : addr < 65536) :
    (addr < 32768 →
      getValue glob loc addr = glob.get? addr ∧
      setValue glob loc addr v =
        (insertAndGetPrev glob addr v).map fun p => (p.1, loc, p.2)) ∧
    (32768 ≤ addr →
      (getValue glob (none : Option (List α)) addr = none ∧
       setValue glob (none : Option (List α)) addr v = none) ∧
      (∀ l, loc = some l →
        getValue glob loc addr = l.get? (addr - 32768) ∧
        setValue glob loc addr v =
          (insertAndGetPrev l (addr - 32768) v).map fun p => (glob, some p.1, p.2))) ∧
    (∀ (s : EngineState) (k : Kind), 32768 ≤ addr → s.stackVect = [] →
      stepCmd (.memoryLoad k addr) s = .fatal ∧
      stepCmd (.memoryStore k addr) s = .fatal) := by
  have hmask := and_localMask_eq_zero_iff addr hb
  have hM : LOCAL_MASK = 32768 := rfl
  refine ⟨fun hlt => ?_, fun hge => ?_, fun s k hge hstk => ?_⟩
  · have h0 : addr &&& LOCAL_MASK = 0 := hmask.mpr hlt
    exact ⟨by simp [getValue, h0], by simp [setValue, h0]⟩
  · have h0 : ¬ addr &&& LOCAL_MASK = 0 := fun hc => absurd (hmask.mp hc) (by omega)
    refine ⟨⟨by simp [getValue, h0], by simp [setValue, h0]⟩, fun l hl => ?_⟩
    subst hl
    have h0' : ¬ addr &&& 32768 = 0 := hM ▸ h0
    exact ⟨by simp [getValue, h0', hM], by simp [setValue, h0', hM]⟩
  · have h0 : ¬ addr &&& LOCAL_MASK = 0 := fun hc => absurd (hmask.mp hc) (by omega)
    constructor
    · cases k <;> simp [stepCmd, memoryLoad, hstk, getValue, h0]
    · cases k
    -- Kind.integer
      · cases his : s.engineStack.intStack <;>
          simp [stepCmd, memoryStore, hstk, setValue, h0, his]
    -- Kind.real
      · cases hrs : s.engineStack.realStack <;>
          simp [stepCmd, memoryStore, hstk, setValue, h0, hrs]
    -- Kind.str
      · cases hss : s.engineStack.strStack.stack with
        | nil => simp [stepCmd, memoryStore, hstk, ReferenceStack.pop, hss]
        | cons x xs =>
          cases hlk : lookupBuff ((s.stringMemory.decrement x)).buff x <;>
            simp [stepCmd, memoryStore, hstk, ReferenceStack.pop, hss,
              StringMemory.increment, hlk, setValue, h0]
    -- Kind.bool
      · cases hbs : s.engineStack.boolStack <;>
          simp [stepCmd, memoryStore, hstk, setValue, h0, hbs]

/-- C5 witness: a global address resolves into the global vector at the
address itself, a LOCAL address resolves into the local vector at the address
minus `2^15`, and a LOCAL access with no activation record is fatal. -/
theorem address_decoding_witness :
    getValue [true, false] (some [false, true, false]) 2 = [true, false].get? 2 ∧
    getValue [true, false] (some [false, true, false]) 32770 =
      [false, true, false].get? (32770 - 32768) ∧
    getValue [true, false] (none : Option (List Bool)) 32770 = none ∧
    stepCmd (.memoryLoad .bool 32770) baseState = .fatal ∧
    stepCmd (.memoryStore .bool 32770) baseState = .fatal :=
  ⟨((address_decoding Bool [true, false] (some [false, true, false]) 2 true
      (by decide)).1 (by decide)).1,
   (((address_decoding Bool [true, false] (some [false, true, false]) 32770 true
      (by decide)).2.1 (by decide)).2 [false, true, false] rfl).1,
   (((address_decoding Bool [true, false] (some [false, true, false]) 32770 true
      (by decide)).2.1 (by decide)).1).1,
   ((address_decoding Bool [true, false] (some [false, true, false]) 32770 true
      (by decide)).2.2 baseState .bool (by decide) rfl).1,
   ((address_decoding Bool [true, false] (some [false, true, false]) 32770 true
      (by decide)).2.2 baseState .bool (by decide) rfl).2⟩

/-! ## Claim C8: Input(Str) refcount -/

/-- C8: after an executed `Input(Str)` that successfully reads a line, the
pool holds the freshly inserted handle as a dynamic entry with refcount
exactly 1, and the new top of the string operand stack is that handle. -/
theorem input_str_refcount (s : EngineState) (str : String) (sb' : StringBuffer)
    (stdin' : List String)
    (hread : nextString s.readerBuff s.stdin = .ok (str, sb', stdin')) :
    ∃ s', stepCmd (.input .str) s = .ok s' ∧
      s'.engineStack.strStack.stack =
        s.stringMemory.index :: s.engineStack.strStack.stack ∧
      refCountOf s'.stringMemory s.stringMemory.index = 1 ∧
      strTypeOf s'.stringMemory s.stringMemory.index = some .dynamic := by
  have hins : lookupBuff
      (insertBuff s.stringMemory.buff s.stringMemory.index
        ⟨str, 1, .dynamic⟩) s.stringMemory.index =
      some ⟨str, 1, .dynamic⟩ :=
    lookupBuff_insertBuff_self _ _ _
  refine ⟨{ s with
      engineStack := { s.engineStack with
                       strStack := ⟨s.stringMemory.index :: s.engineStack.strStack.stack⟩ },
      readerBuff := sb', stdin := stdin',
      stringMemory := StringMemory.decrement
        ⟨updateBuff
            (insertBuff s.stringMemory.buff s.stringMemory.index
              (StringValue.new str .dynamic))
            s.stringMemory.index StringValue.incrRef,
          s.stringMemory.index + 1⟩ s.stringMemory.index }, ?_, rfl, ?_, ?_⟩
  · simp [stepCmd, inputCmd, hread, StringMemory.insertString,
      StringMemory.insertNewString, StringValue.new, ReferenceStack.push,
      StringMemory.increment, hins]
  · simp only [refCountOf, lookup_decrement_self, lookupBuff_updateBuff_self,
      StringValue.new, hins]
    rfl
  · simp only [strTypeOf, lookup_decrement_self, lookupBuff_updateBuff_self,
      StringValue.new, hins]
    rfl

/-- C8 witness: reading the line `hi` leaves a dynamic entry with refcount 1
held by the new stack top. -/
theorem input_str_refcount_witness :
    ∃ s', stepCmd (.input .str) c8InputState = .ok s' ∧
      s'.engineStack.strStack.stack =
        c8InputState.stringMemory.index :: c8InputState.engineStack.strStack.stack ∧
      refCountOf s'.stringMemory c8InputState.stringMemory.index = 1 ∧
      strTypeOf s'.stringMemory c8InputState.stringMemory.index = some .dynamic :=
  input_str_refcount c8InputState "hi" ⟨none, 0⟩ [] rfl

/-! ## Claim C3: Str store refcounts -/

/-- C3 counterexample: storing handle 0 over a cell holding the distinct
handle 1 leaves handle 0's refcount at 2 (the stack pop's decrement cancels
the store's increment), so it does not increase by one, and the total pool
refcount drops from 3 to 2 instead of staying at `3 + 1 - 1`. -/
theorem str_store_refcount_counterexample :
    stepCmd (.memoryStore .str 0) c3StoreState = .ok c3StoreStateAfter ∧
    refCountOf c3StoreState.stringMemory 0 = 2 ∧
    refCountOf c3StoreStateAfter.stringMemory 0 = 2 ∧
    refCountOf c3StoreState.stringMemory 1 = 1 ∧
    refCountOf c3StoreStateAfter.stringMemory 1 = 0 ∧
    totalRefCount c3StoreState.stringMemory = 3 ∧
    totalRefCount c3StoreStateAfter.stringMemory = 2 ∧
    ¬ refCountOf c3StoreStateAfter.stringMemory 0 =
        refCountOf c3StoreState.stringMemory 0 + 1 :=
  ⟨rfl, rfl, rfl, rfl, rfl, rfl, rfl, by decide⟩

/-- C3 (amended): an executed `Str` store of handle `b` over an in-bounds
cell holding `prev` — the global cell at `addr` when the LOCAL bit is clear,
or the top activation record's local cell at `addr - 2^15` when it is set —
decrements `b` on the stack pop, increments it for the cell, and decrements
`prev`; hence for dynamic in-pool handles with positive refcounts, `b`'s
refcount is unchanged when `prev ≠ b` and drops by one when `prev = b`, the
distinct `prev`'s refcount drops by exactly one, and the total pool refcount
drops by exactly one. -/
theorem str_store_refcount (s : EngineState) (addr b prev : Nat) (tl : List Nat)
    (vb vp : StringValue)
    (hstk : s.engineStack.strStack.stack = b :: tl)
    (hcell : (addr &&& LOCAL_MASK = 0 ∧ s.globalMemory.strMem.get? addr = some prev) ∨
      (¬ addr &&& LOCAL_MASK = 0 ∧ ∃ top rest, s.stackVect = top :: rest ∧
        top.funcMem.strMem.get? (addr - LOCAL_MASK) = some prev))
    (hvb : lookupBuff s.stringMemory.buff b = some vb)
    (hbd : vb.strType = .dynamic) (hbpos : 0 < vb.refCount)
    (hvp : lookupBuff s.stringMemory.buff prev = some vp)
    (hpd : vp.strType = .dynamic) (hppos : 0 < vp.refCount) :
    ∃ s', stepCmd (.memoryStore .str addr) s = .ok s' ∧
      (b ≠ prev → refCountOf s'.stringMemory b = vb.refCount ∧
        refCountOf s'.stringMemory prev = vp.refCount - 1) ∧
      (b = prev → refCountOf s'.stringMemory b = vb.refCount - 1) ∧
      totalRefCount s'.stringMemory + 1 = totalRefCount s.stringMemory := by
  -- pool pipeline facts
  have hlb1 : lookupBuff (s.stringMemory.decrement b).buff b = some vb.decrRef := by
    rw [lookup_decrement_self, hvb]
    rfl
  obtain ⟨hrb1, hdb1, _⟩ := decrRef_dynamic vb hbd
  have hinc := increment_of_lookup (s.stringMemory.decrement b) b vb.decrRef hlb1
  have hlb2 : lookupBuff
      { s.stringMemory.decrement b with
        buff := updateBuff (s.stringMemory.decrement b).buff b StringValue.incrRef }.buff b =
      some vb.decrRef.incrRef := by
    simp [lookupBuff_updateBuff_self, hlb1]
  obtain ⟨hrb2, hdb2, _⟩ := incrRef_dynamic vb.decrRef hdb1
  set m2 : StringMemory :=
    { s.stringMemory.decrement b with
      buff := updateBuff (s.stringMemory.decrement b).buff b StringValue.incrRef } with hm2
  set mF : StringMemory := m2.decrement prev with hmF
  -- refcount of b in the final pool
  have hrcb_ne : b ≠ prev → refCountOf mF b = vb.refCount := by
    intro hne
    rw [hmF]
    simp only [refCountOf, lookup_decrement_ne m2 prev b hne, hlb2]
    omega
  have hrcp_ne : b ≠ prev → refCountOf mF prev = vp.refCount - 1 := by
    intro hne
    have hpne : prev ≠ b := fun hc => hne hc.symm
    have hl2p : lookupBuff m2.buff prev = some vp := by
      rw [hm2]
      simp only [lookupBuff_updateBuff_ne _ _ _ _ hpne]
      rw [lookup_decrement_ne _ _ _ hpne, hvp]
    rw [hmF]
    simp only [refCountOf, lookup_decrement_self, hl2p]
    obtain ⟨hrp, _, _⟩ := decrRef_dynamic vp hpd
    simp [hrp]
  have hrcb_eq : b = prev → refCountOf mF b = vb.refCount - 1 := by
    intro heq
    subst heq
    rw [hmF]
    simp only [refCountOf, lookup_decrement_self, hlb2]
    obtain ⟨hr3, _, _⟩ := decrRef_dynamic vb.decrRef.incrRef hdb2
    simp [hr3]
    omega
  -- total refcount
  have ht1 : totalRefCount (s.stringMemory.decrement b) + 1 =
      totalRefCount s.stringMemory :=
    total_decrement_dynamic s.stringMemory b vb hvb hbd hbpos
  have ht2 : totalRefCount m2 = totalRefCount (s.stringMemory.decrement b) + 1 := by
    exact total_increment_dynamic (s.stringMemory.decrement b) b vb.decrRef m2 hlb1 hdb1
      (by rw [hinc])
  have htot : totalRefCount mF + 1 = totalRefCount s.stringMemory := by
    by_cases hbp : b = prev
    · subst hbp
      have := total_decrement_dynamic m2 b vb.decrRef.incrRef hlb2 hdb2 (by omega)
      rw [hmF]
      omega
    · have hpne : prev ≠ b := fun hc => hbp hc.symm
      have hl2p : lookupBuff m2.buff prev = some vp := by
        rw [hm2]
        simp only [lookupBuff_updateBuff_ne _ _ _ _ hpne]
        rw [lookup_decrement_ne _ _ _ hpne, hvp]
      have := total_decrement_dynamic m2 prev vp hl2p hpd hppos
      rw [hmF]
      omega
  -- assemble, by cases on where the target cell decodes
  rcases hcell with ⟨haddr, hcell⟩ | ⟨haddr, top, rest, hsv, hcell⟩
  · -- global cell
    have hinb : addr < s.globalMemory.strMem.length := by
      by_contra hno
      rw [List.get?_eq_none.mpr (by omega)] at hcell
      cases hcell
    have hget : s.globalMemory.strMem[addr] = prev := by
      have h1 : s.globalMemory.strMem[addr]? = some prev := by
        rw [← List.get?_eq_getElem?]
        exact hcell
      rw [List.getElem?_eq_getElem hinb] at h1
      exact Option.some.inj h1
    have hset : insertAndGetPrev s.globalMemory.strMem addr b =
        some (s.globalMemory.strMem.set addr b, some prev) := by
      simp [insertAndGetPrev, hinb, hget]
    cases hsv : s.stackVect with
    | nil =>
      refine ⟨{ s with
          engineStack := { s.engineStack with strStack := ⟨tl⟩ },
          globalMemory := { s.globalMemory with strMem := s.globalMemory.strMem.set addr b },
          stringMemory := mF }, ?_, fun hne => ⟨hrcb_ne hne, hrcp_ne hne⟩, hrcb_eq, htot⟩
      simp [stepCmd, memoryStore, ReferenceStack.pop, hstk, hsv, hinc, setValue, haddr,
        hset, cleanPrev, hm2, hmF]
    | cons top rest =>
      refine ⟨{ s with
          engineStack := { s.engineStack with strStack := ⟨tl⟩ },
          globalMemory := { s.globalMemory with strMem := s.globalMemory.strMem.set addr b },
          stringMemory := mF }, ?_, fun hne => ⟨hrcb_ne hne, hrcp_ne hne⟩, hrcb_eq, htot⟩
      simp [stepCmd, memoryStore, ReferenceStack.pop, hstk, hsv, hinc, setValue, haddr,
        hset, cleanPrev, hm2, hmF]
  · -- local cell of the top activation record
    have hinb : addr - LOCAL_MASK < top.funcMem.strMem.length := by
      by_contra hno
      rw [List.get?_eq_none.mpr (by omega)] at hcell
      cases hcell
    have hget : top.funcMem.strMem[addr - LOCAL_MASK] = prev := by
      have h1 : top.funcMem.strMem[addr - LOCAL_MASK]? = some prev := by
        rw [← List.get?_eq_getElem?]
        exact hcell
      rw [List.getElem?_eq_getElem hinb] at h1
      exact Option.some.inj h1
    have hset : insertAndGetPrev top.funcMem.strMem (addr - LOCAL_MASK) b =
        some (top.funcMem.strMem.set (addr - LOCAL_MASK) b, some prev) := by
      simp [insertAndGetPrev, hinb, hget]
    refine ⟨{ s with
        engineStack := { s.engineStack with strStack := ⟨tl⟩ },
        stringMemory := mF,
        stackVect := { top with funcMem := { top.funcMem with
          strMem := top.funcMem.strMem.set (addr - LOCAL_MASK) b } } :: rest },
      ?_, fun hne => ⟨hrcb_ne hne, hrcp_ne hne⟩, hrcb_eq, htot⟩
    simp [stepCmd, memoryStore, ReferenceStack.pop, hstk, hsv, hinc, setValue, haddr,
      hset, cleanPrev, hm2, hmF]

/-- C3 witness: the amended refcount accounting at a concrete global-cell
store and at a concrete local-cell store. -/
theorem str_store_refcount_witness :
    (∃ s', stepCmd (.memoryStore .str 0) c3StoreState = .ok s' ∧
      ((0 : Nat) ≠ 1 → refCountOf s'.stringMemory 0 = 2 ∧
        refCountOf s'.stringMemory 1 = 1 - 1) ∧
      ((0 : Nat) = 1 → refCountOf s'.stringMemory 0 = 2 - 1) ∧
      totalRefCount s'.stringMemory + 1 = totalRefCount c3StoreState.stringMemory) ∧
    (∃ s', stepCmd (.memoryStore .str 32768) c3LocalStoreState = .ok s' ∧
      ((0 : Nat) ≠ 1 → refCountOf s'.stringMemory 0 = 2 ∧
        refCountOf s'.stringMemory 1 = 1 - 1) ∧
      ((0 : Nat) = 1 → refCountOf s'.stringMemory 0 = 2 - 1) ∧
      totalRefCount s'.stringMemory + 1 = totalRefCount c3LocalStoreState.stringMemory) :=
  ⟨str_store_refcount c3StoreState 0 0 1 [] ⟨"a", 2, .dynamic⟩ ⟨"b", 1, .dynamic⟩
      rfl (Or.inl ⟨rfl, rfl⟩) rfl rfl (by decide) rfl rfl (by decide),
   str_store_refcount c3LocalStoreState 32768 0 1 [] ⟨"a", 2, .dynamic⟩ ⟨"b", 1, .dynamic⟩
      rfl (Or.inr ⟨by decide, ⟨4, emptyBlock, { emptyMemory with strMem := [1] }⟩, [],
        rfl, rfl⟩) rfl rfl (by decide) rfl rfl (by decide)⟩

/-! ## Claim C4: logical And / Or commands -/

/-- C4: the engine's command set contains no command dispatching as logical
`And`, and none dispatching as logical `Or`, even restricted to states whose
boolean stack holds at least two values: the `Command` enum declares no such
variant and no `run_program` dispatch arm has that behavior. -/
theorem no_and_or_command :
    (¬ ∃ c : Command, ∀ (s : EngineState) (rhs lhs : Bool) (rest : List Bool),
      s.engineStack.boolStack = rhs :: lhs :: rest → stepCmd c s = specAndDispatch s) ∧
    (¬ ∃ c : Command, ∀ (s : EngineState) (rhs lhs : Bool) (rest : List Bool),
      s.engineStack.boolStack = rhs :: lhs :: rest → stepCmd c s = specOrDispatch s) := by
  constructor
  · rintro ⟨c, hc⟩
    have h1 := hc (boolState [true, true]) true true [] rfl
    have h2 := hc (boolState [false, true]) false true [] rfl
    have h3 := hc (boolState [false, false]) false false [] rfl
    clear hc
    cases c with
    | integer op =>
      rcases op with m | r <;>
        simp [stepCmd, specAndDispatch, boolState, baseState, EngineStack.newStack,
          fullMathOperationInt, mathOperationInt, relOperationInt] at h1
    | real op =>
      rcases op with m | r <;>
        simp [stepCmd, specAndDispatch, boolState, baseState, EngineStack.newStack,
          fullMathOperationFloat, mathOperationFloat, relOperationFloat] at h1
    | castInt =>
      simp [stepCmd, specAndDispatch, boolState, baseState, EngineStack.newStack] at h1
    | castReal =>
      simp [stepCmd, specAndDispatch, boolState, baseState, EngineStack.newStack] at h1
    | memoryLoad k addr =>
      cases k <;>
        simp [stepCmd, specAndDispatch, boolState, baseState, EngineStack.newStack,
          emptyMemory, emptyPool, memoryLoad, getValue, List.get?_nil, List.head?] at h1
    | memoryStore k addr =>
      cases k <;>
        simp [stepCmd, specAndDispatch, boolState, baseState, EngineStack.newStack,
          emptyMemory, emptyPool, memoryStore, setValue, insertAndGetPrev,
          ReferenceStack.pop, List.get?_nil, List.head?] at h1
    | control ctrl addr =>
      cases ctrl <;>
        simp [stepCmd, specAndDispatch, boolState, baseState, EngineStack.newStack,
          emptyBlock, labelLookup, runJump] at h1
    | input k =>
      cases k <;>
        simp [stepCmd, specAndDispatch, boolState, baseState, EngineStack.newStack,
          inputCmd, nextBool, nextI32, nextF64, nextTyped, nextString,
          StringBuffer.nextToken, StringBuffer.getBuffer] at h1
    | output k =>
      cases k <;>
        simp [stepCmd, specAndDispatch, boolState, baseState, EngineStack.newStack,
          emptyPool, outputCmd, formatBool, ReferenceStack.pop,
          StringMemory.getString, StringMemory.decrement, lookupBuff] at h1
    | flush mode =>
      cases mode <;>
        simp [stepCmd, specAndDispatch, boolState, baseState, EngineStack.newStack,
          handleFlush] at h1
    | forControl fc =>
      cases fc <;>
        simp [stepCmd, specAndDispatch, boolState, baseState, EngineStack.newStack,
          processForCommand] at h1
    | exit =>
      simp [stepCmd, specAndDispatch, boolState, baseState, EngineStack.newStack] at h1
    | constantLoad cst =>
      rcases cst with i | r | sn | bb <;>
        simp [stepCmd, specAndDispatch, boolState, baseState, EngineStack.newStack,
          emptyPool, loadConstant, ReferenceStack.push, StringMemory.increment,
          lookupBuff] at h1
    | storeParam k addr =>
      simp [stepCmd, specAndDispatch, boolState, baseState, EngineStack.newStack] at h1
    | newRecord fId =>
      simp [stepCmd, specAndDispatch, boolState, baseState, EngineStack.newStack,
        List.get?_nil] at h1
    | unary k =>
      cases k <;>
        simp [stepCmd, specAndDispatch, boolState, baseState, EngineStack.newStack,
          unaryOperator] at h1
    | strCompare r =>
      simp [stepCmd, specAndDispatch, boolState, baseState, EngineStack.newStack,
        StringMemory.binaryOperation, ReferenceStack.pop] at h1
    | boolCompare r =>
      cases r with
      | greatEq =>
        simp [stepCmd, specAndDispatch, boolState, baseState, EngineStack.newStack,
          relOperationBool, binaryRelOperationBool] at h2
      | greater =>
        simp [stepCmd, specAndDispatch, boolState, baseState, EngineStack.newStack,
          relOperationBool, binaryRelOperationBool] at h1
      | lessEq =>
        simp [stepCmd, specAndDispatch, boolState, baseState, EngineStack.newStack,
          relOperationBool, binaryRelOperationBool] at h3
      | less =>
        simp [stepCmd, specAndDispatch, boolState, baseState, EngineStack.newStack,
          relOperationBool, binaryRelOperationBool] at h1
      | equal =>
        simp [stepCmd, specAndDispatch, boolState, baseState, EngineStack.newStack,
          relOperationBool, binaryRelOperationBool] at h3
      | notEqual =>
        simp [stepCmd, specAndDispatch, boolState, baseState, EngineStack.newStack,
          relOperationBool, binaryRelOperationBool] at h1
  · rintro ⟨c, hc⟩
    have h1 := hc (boolState [true, true]) true true [] rfl
    have h2 := hc (boolState [false, true]) false true [] rfl
    have h3 := hc (boolState [false, false]) false false [] rfl
    clear hc
    cases c with
    | integer op =>
      rcases op with m | r <;>
        simp [stepCmd, specOrDispatch, boolState, baseState, EngineStack.newStack,
          fullMathOperationInt, mathOperationInt, relOperationInt] at h1
    | real op =>
      rcases op with m | r <;>
        simp [stepCmd, specOrDispatch, boolState, baseState, EngineStack.newStack,
          fullMathOperationFloat, mathOperationFloat, relOperationFloat] at h1
    | castInt =>
      simp [stepCmd, specOrDispatch, boolState, baseState, EngineStack.newStack] at h1
    | castReal =>
      simp [stepCmd, specOrDispatch, boolState, baseState, EngineStack.newStack] at h1
    | memoryLoad k addr =>
      cases k <;>
        simp [stepCmd, specOrDispatch, boolState, baseState, EngineStack.newStack,
          emptyMemory, emptyPool, memoryLoad, getValue, List.get?_nil, List.head?] at h1
    | memoryStore k addr =>
      cases k <;>
        simp [stepCmd, specOrDispatch, boolState, baseState, EngineStack.newStack,
          emptyMemory, emptyPool, memoryStore, setValue, insertAndGetPrev,
          ReferenceStack.pop, List.get?_nil, List.head?] at h1
    | control ctrl addr =>
      cases ctrl <;>
        simp [stepCmd, specOrDispatch, boolState, baseState, EngineStack.newStack,
          emptyBlock, labelLookup, runJump] at h1
    | input k =>
      cases k <;>
        simp [stepCmd, specOrDispatch, boolState, baseState, EngineStack.newStack,
          inputCmd, nextBool, nextI32, nextF64, nextTyped, nextString,
          StringBuffer.nextToken, StringBuffer.getBuffer] at h1
    | output k =>
      cases k <;>
        simp [stepCmd, specOrDispatch, boolState, baseState, EngineStack.newStack,
          emptyPool, outputCmd, formatBool, ReferenceStack.pop,
          StringMemory.getString, StringMemory.decrement, lookupBuff] at h1
    | flush mode =>
      cases mode <;>
        simp [stepCmd, specOrDispatch, boolState, baseState, EngineStack.newStack,
          handleFlush] at h1
    | forControl fc =>
      cases fc <;>
        simp [stepCmd, specOrDispatch, boolState, baseState, EngineStack.newStack,
          processForCommand] at h1
    | exit =>
      simp [stepCmd, specOrDispatch, boolState, baseState, EngineStack.newStack] at h1
    | constantLoad cst =>
      rcases cst with i | r | sn | bb <;>
        simp [stepCmd, specOrDispatch, boolState, baseState, EngineStack.newStack,
          emptyPool, loadConstant, ReferenceStack.push, StringMemory.increment,
          lookupBuff] at h1
    | storeParam k addr =>
      simp [stepCmd, specOrDispatch, boolState, baseState, EngineStack.newStack] at h1
    | newRecord fId =>
      simp [stepCmd, specOrDispatch, boolState, baseState, EngineStack.newStack,
        List.get?_nil] at h1
    | unary k =>
      cases k <;>
        simp [stepCmd, specOrDispatch, boolState, baseState, EngineStack.newStack,
          unaryOperator] at h1
    | strCompare r =>
      simp [stepCmd, specOrDispatch, boolState, baseState, EngineStack.newStack,
        StringMemory.binaryOperation, ReferenceStack.pop] at h1
    | boolCompare r =>
      cases r with
      | greatEq =>
        simp [stepCmd, specOrDispatch, boolState, baseState, EngineStack.newStack,
          relOperationBool, binaryRelOperationBool] at h3
      | greater =>
        simp [stepCmd, specOrDispatch, boolState, baseState, EngineStack.newStack,
          relOperationBool, binaryRelOperationBool] at h1
      | lessEq =>
        simp [stepCmd, specOrDispatch, boolState, baseState, EngineStack.newStack,
          relOperationBool, binaryRelOperationBool] at h2
      | less =>
        simp [stepCmd, specOrDispatch, boolState, baseState, EngineStack.newStack,
          relOperationBool, binaryRelOperationBool] at h1
      | equal =>
        simp [stepCmd, specOrDispatch, boolState, baseState, EngineStack.newStack,
          relOperationBool, binaryRelOperationBool] at h2
      | notEqual =>
        simp [stepCmd, specOrDispatch, boolState, baseState, EngineStack.newStack,
          relOperationBool, binaryRelOperationBool] at h1

end Simpla
